import Mathlib

/-!
Shallow embedding of the `Long` 64-bit two's-complement integer class from
`src/mod.ts` (a port of long.js).

Representation: the source stores two signed 32-bit words `low`, `high` and a
flag `unsigned`.  We model each word by its 32-bit *bit pattern*, a `Nat`
below `2^32`, carried with its bound; `toS32` recovers the signed reading
where the source reads a word as a signed number.  JavaScript numbers are
modelled by exact rationals (`ℚ`): every JS number is a rational, and every
arithmetic step the source performs on numbers in the paths embedded here
stays within the exactly-representable double range, except inside the
division loop, whose `Math.floor(rem.toNumber()/divisor.toNumber())` /
`Math.log`-based step computation is modelled by an oracle parameter (see
`DivOracle` below).  `NaN` is modelled by a dedicated constructor of `JSNum`.

The WebAssembly accelerator (`wasm` in the source) is absent in this model:
the spec scopes it out and the embedded code is the emulated fallback path.
The small-integer instance caches `INT_CACHE`/`UINT_CACHE` are identity-only
optimizations (the cached object equals the freshly built one field by
field), so `fromInt` is modelled without them.
-/

deriving instance DecidableEq for Except

/- Batteries marks the `Rat` arithmetic irreducible, which blocks `decide`
on concrete rational computations; restore the default transparency. -/
attribute [local semireducible] Rat.add Rat.sub Rat.mul Rat.inv Rat.ofScientific

/-- Signed reading of a 32-bit pattern (the source's `| 0` view of a word). -/
def toS32 (p : Nat) : Int :=
  if p < 2147483648 then (p : Int) else (p : Int) - 4294967296

/-- Bit pattern of a JS 32-bit integer coercion (`| 0` / `>>> 0`). -/
def pat32 (i : Int) : Nat := (i.emod 4294967296).toNat

/-- JS `<<` on a 32-bit word (shift count is masked to 5 bits). -/
def shl32 (p n : Nat) : Nat := (p <<< (n % 32)) % 4294967296

/-- JS `>>>` on a 32-bit word. -/
def shru32 (p n : Nat) : Nat := (p % 4294967296) >>> (n % 32)

/-- JS `>>` (arithmetic shift) on a 32-bit word, as a bit pattern. -/
def sar32 (p n : Nat) : Nat := pat32 ((toS32 p).fdiv (2 ^ (n % 32)))

/-- JS `~` on a 32-bit word, as a bit pattern. -/
def not32 (p : Nat) : Nat := 4294967295 - (p % 4294967296)

/-- The `Long` value: low and high 32-bit words (as bit patterns, with their
bounds) plus the signedness flag.  Mirrors `class Long` of `src/mod.ts`. -/
structure Long where
  low : Nat
  high : Nat
  unsigned : Bool
  hlow : low < 4294967296
  hhigh : high < 4294967296

instance : DecidableEq Long := fun a b =>
  if h : a.low = b.low ∧ a.high = b.high ∧ a.unsigned = b.unsigned then
    .isTrue (by
      obtain ⟨a1, a2, a3, _, _⟩ := a
      obtain ⟨b1, b2, b3, _, _⟩ := b
      obtain ⟨h1, h2, h3⟩ := h
      subst h1; subst h2; subst h3; rfl)
  else .isFalse (fun he => h (by cases he; exact ⟨rfl, rfl, rfl⟩))

namespace Long

/-- Build a `Long` from two word patterns (normalizing, as the constructor's
`| 0` does). -/
def ofPat (l h : Nat) (u : Bool) : Long :=
  ⟨l % 4294967296, h % 4294967296, u,
   Nat.mod_lt _ (by decide), Nat.mod_lt _ (by decide)⟩

/-- `Long.fromBits(lowBits, highBits, unsigned)`. -/
def fromBits (l h : Int) (u : Bool) : Long := ofPat (pat32 l) (pat32 h) u

/-- `Long.fromInt(value, unsigned)` (the `INT_CACHE`/`UINT_CACHE` lookups are
identity-only optimizations and are dropped). -/
def fromInt (value : Int) (u : Bool) : Long :=
  if u then
    ofPat (pat32 value) 0 true
  else
    let p := pat32 value
    ofPat p (if 2147483648 ≤ p then 4294967295 else 0) false

def ZERO : Long := fromInt 0 false

def UZERO : Long := fromInt 0 true

def ONE : Long := fromInt 1 false

def UONE : Long := fromInt 1 true

def NEG_ONE : Long := fromInt (-1) false

def MAX_VALUE : Long := fromBits 4294967295 2147483647 false

def MIN_VALUE : Long := fromBits 0 2147483648 false

def MAX_UNSIGNED_VALUE : Long := fromBits 4294967295 4294967295 true

def TWO_PWR_24 : Long := fromInt 16777216 false

/-- The 64-bit bit-pattern value of a `Long` (model-level view; the source's
`(high >>> 0) * 2^32 + (low >>> 0)`). -/
def asU (x : Long) : Nat := x.high * 4294967296 + x.low

def isZero (x : Long) : Bool := x.high = 0 ∧ x.low = 0

def isNegative (x : Long) : Bool := !x.unsigned ∧ toS32 x.high < 0

def isOdd (x : Long) : Bool := x.low % 2 = 1

/-- `equals` (flag-mismatch guard plus raw word comparison). -/
def equals (x y : Long) : Bool :=
  if x.unsigned ≠ y.unsigned ∧ x.high >>> 31 = 1 ∧ y.high >>> 31 = 1 then false
  else decide (x.high = y.high ∧ x.low = y.low)

def eq (x y : Long) : Bool := equals x y

/-- `not`: word-wise complement. -/
def not (x : Long) : Long := ofPat (not32 x.low) (not32 x.high) x.unsigned

/-- `add`: 16-bit limb addition with carry propagation, as in the source. -/
def add (x y : Long) : Long :=
  let a48 := x.high >>> 16
  let a32 := x.high &&& 65535
  let a16 := x.low >>> 16
  let a00 := x.low &&& 65535
  let b48 := y.high >>> 16
  let b32 := y.high &&& 65535
  let b16 := y.low >>> 16
  let b00 := y.low &&& 65535
  let c00 := a00 + b00
  let c16 := c00 >>> 16
  let c00 := c00 &&& 65535
  let c16 := c16 + (a16 + b16)
  let c32 := c16 >>> 16
  let c16 := c16 &&& 65535
  let c32 := c32 + (a32 + b32)
  let c48 := c32 >>> 16
  let c32 := c32 &&& 65535
  let c48 := c48 + (a48 + b48)
  let c48 := c48 &&& 65535
  ofPat ((c16 <<< 16) ||| c00) ((c48 <<< 16) ||| c32) x.unsigned

/-- `negate`: `MIN_VALUE` is returned unchanged, otherwise `not(x) + 1`. -/
def negate (x : Long) : Long :=
  if !x.unsigned ∧ eq x MIN_VALUE then MIN_VALUE
  else (not x).add ONE

def neg (x : Long) : Long := negate x

/-- `subtract`: `this.add(subtrahend.neg())`. -/
def subtract (x y : Long) : Long := x.add y.negate

def sub (x y : Long) : Long := subtract x y

/-- `compare` (`-1`/`0`/`1`): equality short-circuit, sign comparison,
subtraction-based signed order, unsigned word order. -/
def compare (x y : Long) : Int :=
  if eq x y then 0
  else
    let thisNeg := isNegative x
    let otherNeg := isNegative y
    if thisNeg ∧ ¬otherNeg then -1
    else if ¬thisNeg ∧ otherNeg then 1
    else if ¬x.unsigned then (if (x.sub y).isNegative then -1 else 1)
    else if y.high > x.high ∨ (y.high = x.high ∧ y.low > x.low) then -1 else 1

def lt (x y : Long) : Bool := decide (compare x y < 0)

def gt (x y : Long) : Bool := decide (0 < compare x y)

def gte (x y : Long) : Bool := decide (0 ≤ compare x y)

def toUnsigned (x : Long) : Long :=
  if x.unsigned then x else ofPat x.low x.high true

def toSigned (x : Long) : Long :=
  if !x.unsigned then x else ofPat x.low x.high false

/-- `toNumber()`, modelled exactly as a rational (the double it returns is
this value rounded to 53 bits of precision; the two agree wherever the
embedded paths consume it). -/
def toNumber (x : Long) : ℚ :=
  if x.unsigned then ((x.high : ℚ) * 4294967296 + x.low)
  else ((toS32 x.high : ℚ) * 4294967296 + x.low)

end Long

/-- A JS number: NaN or an (exact) rational value. -/
inductive JSNum where
  | nan : JSNum
  | num : ℚ → JSNum
deriving DecidableEq

/-- JS truncation toward zero (`| 0` before the 32-bit wrap, `parseInt`
and `%` semantics are built from it). -/
def jsTrunc (q : ℚ) : Int := if 0 ≤ q then ⌊q⌋ else -⌊-q⌋

/-- JS `%` (remainder with the dividend's sign): `x - y * trunc(x / y)`. -/
def jsMod (x y : ℚ) : ℚ := x - y * (jsTrunc (x / y) : ℚ)

namespace Long

/-- The final word-splitting step of `fromNumber` for a non-negative
in-range value: `fromBits((value % 2^32) | 0, (value / 2^32) | 0, unsigned)`. -/
def fromNumberCore (q : ℚ) (u : Bool) : Long :=
  fromBits (jsTrunc (jsMod q 4294967296)) (jsTrunc (q / 4294967296)) u

/-- Body of `fromNumber` on a non-NaN number.  The source recurses once
through negation (`Long.fromNumber(-value, unsigned).neg()`); since the
negative branch is reachable at most once, the recursion is run on a
structural depth counter with 2 levels, which is provably sufficient
(`fromNumGo_fuel`); the depth-0 base is dead code. -/
def fromNumGo (fuel : Nat) (q : ℚ) (u : Bool) : Long :=
  match fuel with
  | 0 => if u then UZERO else ZERO
  | n + 1 =>
    if u ∧ q < 0 then UZERO
    else if u ∧ (18446744073709551616 : ℚ) ≤ q then MAX_UNSIGNED_VALUE
    else if ¬u ∧ q ≤ -(9223372036854775808 : ℚ) then MIN_VALUE
    else if ¬u ∧ (9223372036854775808 : ℚ) ≤ q + 1 then MAX_VALUE
    else if q < 0 then (fromNumGo n (-q) u).negate
    else fromNumberCore q u
termination_by structural fuel

/-- `Long.fromNumber(value, unsigned)`. -/
def fromNumber (v : JSNum) (u : Bool) : Long :=
  match v with
  | .nan => if u then UZERO else ZERO
  | .num q => fromNumGo 2 q u

/-- The small-operand branch of `multiply`: float multiplication (exact here,
both operands being below `2^24`) followed by `fromNumber`. -/
def mulSmall (x y : Long) : Long :=
  fromNumber (.num (toNumber x * toNumber y)) x.unsigned

/-- The 16-bit limb branch of `multiply`: 4x4 partial products accumulated
with carry propagation, products beyond bit 63 skipped, top limb masked. -/
def mulLimbs (x y : Long) : Long :=
  let a48 := x.high >>> 16
  let a32 := x.high &&& 65535
  let a16 := x.low >>> 16
  let a00 := x.low &&& 65535
  let b48 := y.high >>> 16
  let b32 := y.high &&& 65535
  let b16 := y.low >>> 16
  let b00 := y.low &&& 65535
  let c00 := a00 * b00
  let c16 := c00 >>> 16
  let c00 := c00 &&& 65535
  let c16 := c16 + a16 * b00
  let c32 := c16 >>> 16
  let c16 := c16 &&& 65535
  let c16 := c16 + a00 * b16
  let c32 := c32 + (c16 >>> 16)
  let c16 := c16 &&& 65535
  let c32 := c32 + a32 * b00
  let c48 := c32 >>> 16
  let c32 := c32 &&& 65535
  let c32 := c32 + a16 * b16
  let c48 := c48 + (c32 >>> 16)
  let c32 := c32 &&& 65535
  let c32 := c32 + a00 * b32
  let c48 := c48 + (c32 >>> 16)
  let c32 := c32 &&& 65535
  let c48 := c48 + (a48 * b00 + a32 * b16 + a16 * b32 + a00 * b48)
  let c48 := c48 &&& 65535
  ofPat ((c16 <<< 16) ||| c00) ((c48 <<< 16) ||| c32) x.unsigned

/-- Body of `multiply` (non-wasm path).  The sign-normalization branches
recurse once on negated operands, which are then non-negative and recurse no
further, so a structural depth counter with 2 levels is provably sufficient
(`mulGo_fuel`); the depth-0 base is dead code. -/
def mulGo (fuel : Nat) (x y : Long) : Long :=
  match fuel with
  | 0 => ZERO
  | n + 1 =>
    if x.isZero then x
    else if y.isZero then (if x.unsigned then UZERO else ZERO)
    else if x.eq MIN_VALUE then (if y.isOdd then MIN_VALUE else ZERO)
    else if y.eq MIN_VALUE then (if x.isOdd then MIN_VALUE else ZERO)
    else if x.isNegative then
      (if y.isNegative then mulGo n x.negate y.negate
       else (mulGo n x.negate y).negate)
    else if y.isNegative then (mulGo n x y.negate).negate
    else if x.lt TWO_PWR_24 && y.lt TWO_PWR_24 then mulSmall x y
    else mulLimbs x y
termination_by structural fuel

/-- `multiply` (emulated path; the wasm accelerator is out of scope). -/
def multiply (x y : Long) : Long := mulGo 2 x y

def mul (x y : Long) : Long := multiply x y

/-- `shiftLeft` with the source's `numBits &= 63` reduction. -/
def shiftLeft (x : Long) (numBits : Int) : Long :=
  let m := (numBits.emod 64).toNat
  if m = 0 then x
  else if m < 32 then
    ofPat (shl32 x.low m) (shl32 x.high m ||| shru32 x.low (32 - m)) x.unsigned
  else ofPat 0 (shl32 x.low (m - 32)) x.unsigned

def shl (x : Long) (n : Int) : Long := shiftLeft x n

/-- `shiftRight` (arithmetic). -/
def shiftRight (x : Long) (numBits : Int) : Long :=
  let m := (numBits.emod 64).toNat
  if m = 0 then x
  else if m < 32 then
    ofPat (shru32 x.low m ||| shl32 x.high (32 - m)) (sar32 x.high m) x.unsigned
  else ofPat (sar32 x.high (m - 32)) (if 0 ≤ toS32 x.high then 0 else 4294967295) x.unsigned

def shr (x : Long) (n : Int) : Long := shiftRight x n

/-- `shiftRightUnsigned`. -/
def shiftRightUnsigned (x : Long) (numBits : Int) : Long :=
  let m := (numBits.emod 64).toNat
  if m = 0 then x
  else if m < 32 then
    ofPat (shru32 x.low m ||| shl32 x.high (32 - m)) (shru32 x.high m) x.unsigned
  else if m = 32 then ofPat x.high 0 x.unsigned
  else ofPat (shru32 x.high (m - 32)) 0 x.unsigned

def shru (x : Long) (n : Int) : Long := shiftRightUnsigned x n

/-- `rotateLeft`.  For reduced bit counts in 33..63 the source function has
no `return` statement on its final path (it computes `numBits -= 32;
b = (32 - numBits);` and falls off the end), so the call evaluates to
`undefined`; that path is `none` here. -/
def rotateLeft (x : Long) (numBits : Int) : Option Long :=
  let m := (numBits.emod 64).toNat
  if m = 0 then some x
  else if m = 32 then some (ofPat x.high x.low x.unsigned)
  else if m < 32 then
    some (ofPat (shl32 x.low m ||| shru32 x.high (32 - m))
                (shl32 x.high m ||| shru32 x.low (32 - m)) x.unsigned)
  else none

/-- `rotateRight` (complete in the source, unlike `rotateLeft`). -/
def rotateRight (x : Long) (numBits : Int) : Long :=
  let m := (numBits.emod 64).toNat
  if m = 0 then x
  else if m = 32 then ofPat x.high x.low x.unsigned
  else if m < 32 then
    ofPat (shl32 x.high (32 - m) ||| shru32 x.low m)
          (shl32 x.low (32 - m) ||| shru32 x.high m) x.unsigned
  else
    let m := m - 32
    ofPat (shl32 x.low (32 - m) ||| shru32 x.high m)
          (shl32 x.high (32 - m) ||| shru32 x.low m) x.unsigned

end Long

/-- Errors of `divide`/`modulo`: the source's `Error('division by zero')`,
plus the out-of-fuel marker of this embedding (the source loop runs
unbounded; see `DivOracle`). -/
inductive DivErr where
  | divByZero : DivErr
  | outOfFuel : DivErr
deriving DecidableEq

/-- Oracle for the floating-point step of the division loop.  On state
`(rem, divisor)` the source computes
`approx = Math.max(1, Math.floor(rem.toNumber() / divisor.toNumber()))` and
`delta = (log2 <= 48) ? 1 : 2^(log2-48)` with
`log2 = Math.ceil(Math.log(approx) / Math.LN2)`.  `toNumber` and the
division round to 53-bit doubles and `Math.log`/`Math.pow` are
implementation-approximated in ECMAScript, so these two numbers are not
determined by the source text; the embedding takes them as an oracle
`(approx₀, delta)` (the `Math.max(1, ·)` is applied by the embedding).
Both are mathematical integers in every reachable state. -/
def DivOracle : Type := Long → Long → Int × Int

namespace Long

/-- The inner correction loop of `divide`: decrease `approx` by `delta`
until `approxRes * divisor` is neither negative nor greater than `rem`. -/
def innerLoop (u : Bool) (divisor rem : Long) (delta : Int)
    (fuel : Nat) (approx : Int) (aRes aRem : Long) : Option (Long × Long) :=
  if aRem.isNegative || aRem.gt rem then
    match fuel with
    | 0 => none
    | f + 1 =>
      let approx2 := approx - delta
      let aRes2 := fromNumber (.num (approx2 : ℚ)) u
      innerLoop u divisor rem delta f approx2 aRes2 (aRes2.multiply divisor)
  else some (aRes, aRem)
termination_by structural fuel

/-- The outer division loop: `while (rem.gte(divisor))` accumulate the
approved term into `res` and subtract its product from `rem`. -/
def divLoop (o : DivOracle) (u : Bool) (divisor : Long)
    (fuel : Nat) (res rem : Long) : Except DivErr Long :=
  match fuel with
  | 0 => .error .outOfFuel
  | fuel + 1 =>
    if rem.gte divisor then
      let p := o rem divisor
      let approx : Int := max 1 p.1
      let delta : Int := p.2
      let aRes := fromNumber (.num (approx : ℚ)) false
      let aRem := aRes.multiply divisor
      match innerLoop u divisor rem delta fuel approx aRes aRem with
      | none => .error .outOfFuel
      | some (aRes2, aRem2) =>
        let aRes3 := if aRes2.isZero then ONE else aRes2
        divLoop o u divisor fuel (res.add aRes3) (rem.sub aRem2)
    else .ok res
termination_by structural fuel

/-- `divide` (non-wasm path), on an oracle for the float approximations and
a fuel bound standing for the source's unbounded loop/recursion. -/
def divide (o : DivOracle) (fuel : Nat) (a b : Long) : Except DivErr Long :=
  match fuel with
  | 0 => .error .outOfFuel
  | fuel + 1 =>
    if b.isZero then .error .divByZero
    else if a.isZero then .ok (if a.unsigned then UZERO else ZERO)
    else if ¬a.unsigned then
      if a.eq MIN_VALUE then
        if b.eq ONE || b.eq NEG_ONE then .ok MIN_VALUE
        else if b.eq MIN_VALUE then .ok ONE
        else
          let halfThis := a.shr 1
          match divide o fuel halfThis b with
          | .error e => .error e
          | .ok v =>
            let approx := v.shl 1
            if approx.eq ZERO then .ok (if b.isNegative then ONE else NEG_ONE)
            else
              let rem := a.sub (b.multiply approx)
              match divide o fuel rem b with
              | .error e => .error e
              | .ok r2 => .ok (approx.add r2)
      else if b.eq MIN_VALUE then .ok (if a.unsigned then UZERO else ZERO)
      else if a.isNegative then
        if b.isNegative then divide o fuel a.negate b.negate
        else
          match divide o fuel a.negate b with
          | .error e => .error e
          | .ok r => .ok r.negate
      else if b.isNegative then
        match divide o fuel a b.negate with
        | .error e => .error e
        | .ok r => .ok r.negate
      else divLoop o a.unsigned b fuel ZERO a
    else
      let b2 := if ¬b.unsigned then b.toUnsigned else b
      if b2.gt a then .ok UZERO
      else if b2.gt (a.shru 1) then .ok UONE
      else divLoop o a.unsigned b2 fuel UZERO a
termination_by structural fuel

/-- `modulo` (non-wasm path): `this.sub(this.div(divisor).mul(divisor))`. -/
def modulo (o : DivOracle) (fuel : Nat) (a b : Long) : Except DivErr Long :=
  match divide o fuel a b with
  | .error e => .error e
  | .ok q => .ok (a.sub (q.multiply b))

end Long

/-- Errors thrown by `fromString`: `Error('empty string')`,
`RangeError('radix')`, `Error('interior hyphen')`. -/
inductive StrErr where
  | emptyString : StrErr
  | radixRange : StrErr
  | interiorHyphen : StrErr
deriving DecidableEq

/-- Digit value of a character under the `parseInt` builtin
(case-insensitive letters for 10..35). -/
def digitVal (c : Char) : Option Nat :=
  if ('0' ≤ c ∧ c ≤ '9') then some (c.toNat - 48)
  else if ('a' ≤ c ∧ c ≤ 'z') then some (c.toNat - 97 + 10)
  else if ('A' ≤ c ∧ c ≤ 'Z') then some (c.toNat - 65 + 10)
  else none

/-- Accumulate the maximal leading run of digits valid in the radix;
`none` when the run is empty (`parseInt` returns `NaN` then). -/
def parseDigits (radix : Nat) (s : List Char) (acc : Option Nat) : Option Nat :=
  match s with
  | [] => acc
  | c :: rest =>
    match digitVal c with
    | some d => if d < radix then parseDigits radix rest (some ((acc.getD 0) * radix + d)) else acc
    | none => acc
termination_by structural s

def isJsSpace (c : Char) : Bool := c = ' ' ∨ c = '\t' ∨ c = '\n' ∨ c = '\r'

/-- Model of the host `parseInt(string, radix)` builtin as used by
`fromString`: skip leading whitespace, an optional sign, an optional
`0x`/`0X` when the radix is 16, then the maximal leading run of digits valid
in the radix; `NaN` when that run is empty.  (`fromString` only ever passes
a radix in [2,36].) -/
def parseIntJS (s : List Char) (radix : Int) : JSNum :=
  let rad := radix.toNat
  let s1 := s.dropWhile isJsSpace
  let signAndRest : Bool × List Char :=
    match s1 with
    | '-' :: r => (true, r)
    | '+' :: r => (false, r)
    | _ => (false, s1)
  let s3 :=
    if rad = 16 then
      match signAndRest.2 with
      | '0' :: 'x' :: r => r
      | '0' :: 'X' :: r => r
      | _ => signAndRest.2
    else signAndRest.2
  match parseDigits rad s3 none with
  | none => .nan
  | some v => .num (if signAndRest.1 then -(v : ℚ) else (v : ℚ))

namespace Long

/-- The chunked accumulation loop of `fromString`
(`for (let i = 0; i < str.length; i += 8)`), run on a structural counter
which the caller sets to the string length, an upper bound on the iteration
count since every iteration consumes at least one character. -/
def parseChunksGo (radix : Int) (radixToPower : Long)
    (fuel : Nat) (s : List Char) (result : Long) : Long :=
  match fuel with
  | 0 => result
  | fuel + 1 =>
    match s with
    | [] => result
    | _ :: _ =>
      let chunk := s.take 8
      let value := parseIntJS chunk radix
      if chunk.length < 8 then
        let power := fromNumber (.num ((radix : ℚ) ^ chunk.length)) false
        parseChunksGo radix radixToPower fuel (s.drop 8)
          ((result.multiply power).add (fromNumber value false))
      else
        parseChunksGo radix radixToPower fuel (s.drop 8)
          ((result.multiply radixToPower).add (fromNumber value false))
termination_by structural fuel

/-- The digit-parsing tail of `fromString` (the code after the sign/marker
handling): chunk accumulation followed by `result.unsigned = unsigned`. -/
def parseWhole (s : List Char) (u : Bool) (radix : Int) : Long :=
  let radixToPower := fromNumber (.num ((radix : ℚ) ^ (8 : Nat))) false
  let r := parseChunksGo radix radixToPower s.length s ZERO
  { r with unsigned := u }

/-- `Long.fromString(str, unsigned, radix)`.  The string is a character
list; `radix = 0` stands for the omitted parameter (the source's
`radix = radix || 10` turns both into 10).  The `typeof unsigned ===
'number'` compatibility overload is not modelled (signedness is a `Bool`
here). -/
def fromString (s : List Char) (u : Bool) (radix0 : Int) : Except StrErr Long :=
  match s with
  | [] => .error .emptyString
  | s@(_ :: rest) =>
    if s = "NaN".toList ∨ s = "Infinity".toList ∨ s = "+Infinity".toList ∨
        s = "-Infinity".toList then
      .ok (if u then UZERO else ZERO)
    else
      let radix := if radix0 = 0 then 10 else radix0
      if radix < 2 ∨ 36 < radix then .error .radixRange
      else
        match s.findIdx? (fun c => c = '-') with
        | some 0 => (fromString rest u radix).map negate
        | some (_ + 1) => .error .interiorHyphen
        | none => .ok (parseWhole s u radix)
termination_by structural s

/-- 64-bit wrap of a mathematical integer into a `Long` (used only by the
specification-side `fromNumberSpec` below). -/
def ofInt64 (k : Int) (u : Bool) : Long :=
  let n := (k.emod 18446744073709551616).toNat
  ofPat (n % 4294967296) (n / 4294967296) u

/-- Specification-side restatement of `fromNumber` (amended claim C5):
NaN maps to zero; inputs below the representable range clamp to the minimum
(`MIN_VALUE` when signed, `UZERO` for every negative input when unsigned)
and inputs at or above the range clamp to the maximum; every other input is
truncated toward zero. -/
def fromNumberSpec (v : JSNum) (u : Bool) : Long :=
  match v with
  | .nan => if u then UZERO else ZERO
  | .num q =>
    if u then
      if q < 0 then UZERO
      else if (18446744073709551616 : ℚ) ≤ q then MAX_UNSIGNED_VALUE
      else ofInt64 (jsTrunc q) true
    else
      if q ≤ -(9223372036854775808 : ℚ) then MIN_VALUE
      else if (9223372036854775808 : ℚ) ≤ q + 1 then MAX_VALUE
      else ofInt64 (jsTrunc q) false

/-- A concrete division oracle for witnesses: the approximation term is
always 1 with unit step (a legitimate under-approximation on every state). -/
def unitOracle : DivOracle := fun _ _ => (1, 1)

end Long

/-! ## Word-level arithmetic lemmas -/

theorem Long.ext_fields {x y : Long} (h1 : x.low = y.low) (h2 : x.high = y.high)
    (h3 : x.unsigned = y.unsigned) : x = y := by
  obtain ⟨a1, a2, a3, _, _⟩ := x
  obtain ⟨b1, b2, b3, _, _⟩ := y
  simp only at h1 h2 h3
  subst h1; subst h2; subst h3; rfl

theorem Long.asU_lt (x : Long) : x.asU < 18446744073709551616 := by
  have h1 := x.hlow
  have h2 := x.hhigh
  unfold asU
  omega

theorem Long.eq_of_asU {x y : Long} (hu : x.unsigned = y.unsigned)
    (h : x.asU = y.asU) : x = y := by
  have hx1 := x.hlow
  have hy1 := y.hlow
  unfold asU at h
  exact Long.ext_fields (by omega) (by omega) hu

theorem Long.ofPat_unsigned (l h : Nat) (u : Bool) : (Long.ofPat l h u).unsigned = u := rfl

theorem Long.ofPat_low (l h : Nat) (u : Bool) : (Long.ofPat l h u).low = l % 4294967296 := rfl

theorem Long.ofPat_high (l h : Nat) (u : Bool) : (Long.ofPat l h u).high = h % 4294967296 := rfl

theorem Long.asU_ofPat (l h : Nat) (u : Bool) :
    (Long.ofPat l h u).asU = (h % 4294967296) * 4294967296 + l % 4294967296 := rfl

theorem land_65535 (x : Nat) : x &&& 65535 = x % 65536 := by
  have h := Nat.and_pow_two_sub_one_eq_mod x 16
  norm_num at h
  exact h

theorem shiftr16 (x : Nat) : x >>> 16 = x / 65536 := by
  have h := Nat.shiftRight_eq_div_pow x 16
  norm_num at h
  exact h

theorem lor_shl16 (c x : Nat) (hx : x < 65536) : (c <<< 16) ||| x = 65536 * c + x := by
  apply Nat.eq_of_testBit_eq
  intro j
  rw [Nat.testBit_lor, Nat.testBit_shiftLeft]
  rw [show (65536 : Nat) = 2 ^ 16 from by norm_num] at hx ⊢
  rw [Nat.testBit_mul_pow_two_add c hx j]
  by_cases hj : j < 16
  · have : ¬(16 ≤ j) := by omega
    simp [hj, this]
  · have h16 : 16 ≤ j := by omega
    have hxj : x.testBit j = false := Nat.testBit_lt_two_pow (lt_of_lt_of_le hx (Nat.pow_le_pow_right (by norm_num) h16))
    simp [hj, h16, hxj]

theorem Long.asU_add (x y : Long) :
    (x.add y).asU = (x.asU + y.asU) % 18446744073709551616 := by
  have hxl := x.hlow
  have hxh := x.hhigh
  have hyl := y.hlow
  have hyh := y.hhigh
  unfold add
  simp only [land_65535, shiftr16]
  rw [lor_shl16 _ _ (by omega), lor_shl16 _ _ (by omega)]
  rw [Long.asU_ofPat]
  unfold asU
  omega

theorem Long.add_unsigned (x y : Long) : (x.add y).unsigned = x.unsigned := rfl

theorem Long.asU_not (x : Long) : x.not.asU = 18446744073709551615 - x.asU := by
  have hxl := x.hlow
  have hxh := x.hhigh
  unfold not not32
  rw [Long.asU_ofPat]
  unfold asU
  omega

theorem Long.not_unsigned (x : Long) : x.not.unsigned = x.unsigned := rfl

theorem Long.eq_MIN_iff (x : Long) : x.eq Long.MIN_VALUE = true ↔ x = Long.MIN_VALUE := by
  constructor
  · intro h
    unfold eq equals at h
    split at h
    · simp at h
    · simp only [decide_eq_true_eq] at h
      rename_i hguard
      simp only [not_and, not_forall] at hguard
      by_cases hu : x.unsigned = true
      · exfalso
        have hhi : x.high = 2147483648 := by
          have : Long.MIN_VALUE.high = 2147483648 := rfl
          omega
        have hne : x.unsigned ≠ Long.MIN_VALUE.unsigned := by rw [hu]; decide
        exact hguard hne (by rw [hhi]; decide) (by decide)
      · have hxu : x.unsigned = false := by simp at hu; exact hu
        apply Long.ext_fields (y := Long.MIN_VALUE)
        · have : Long.MIN_VALUE.low = 0 := rfl
          omega
        · have : Long.MIN_VALUE.high = 2147483648 := rfl
          omega
        · rw [hxu]; rfl
  · intro h
    subst h
    rfl

theorem Long.asU_negate (x : Long) :
    x.negate.asU = (18446744073709551616 - x.asU) % 18446744073709551616 := by
  unfold negate
  split
  · rename_i h
    obtain ⟨h1, h2⟩ := h
    rw [Long.eq_MIN_iff] at h2
    rw [h2]
    rfl
  · rw [Long.asU_add, Long.asU_not]
    have h1 := x.asU_lt
    have h2 : Long.ONE.asU = 1 := rfl
    rw [h2]
    omega

theorem Long.negate_unsigned (x : Long) : x.negate.unsigned = x.unsigned := by
  unfold negate
  split
  · rename_i h
    obtain ⟨h1, _⟩ := h
    simp only [Bool.not_eq_true'] at h1
    rw [h1]
    rfl
  · rfl

theorem Long.asU_sub (x y : Long) :
    (x.sub y).asU = (x.asU + (18446744073709551616 - y.asU)) % 18446744073709551616 := by
  unfold sub subtract
  rw [Long.asU_add, Long.asU_negate]
  have h1 := x.asU_lt
  have h2 := y.asU_lt
  omega

theorem Long.sub_unsigned (x y : Long) : (x.sub y).unsigned = x.unsigned := rfl

theorem Long.isZero_iff (x : Long) : x.isZero = true ↔ x.asU = 0 := by
  unfold isZero asU
  simp only [Bool.decide_and, Bool.and_eq_true, decide_eq_true_eq]
  omega

instance : NeZero (18446744073709551616 : ℕ) := ⟨by norm_num⟩

theorem castN_mod (n : Nat) :
    ((n % 18446744073709551616 : Nat) : ZMod 18446744073709551616) = (n : ZMod 18446744073709551616) :=
  ZMod.natCast_mod n 18446744073709551616

theorem asU_eq_of_cast {x y : Long}
    (h : ((x.asU : ZMod 18446744073709551616) = (y.asU : ZMod 18446744073709551616))) :
    x.asU = y.asU := by
  have hx := x.asU_lt
  have hy := y.asU_lt
  have hv := congrArg ZMod.val h
  rwa [ZMod.val_natCast, ZMod.val_natCast, Nat.mod_eq_of_lt hx, Nat.mod_eq_of_lt hy] at hv

theorem floor_div_two32 (n : Nat) : ⌊(n : ℚ) / 4294967296⌋ = (n / 4294967296 : ℕ) := by
  rw [Int.floor_eq_iff]
  constructor
  · rw [le_div_iff (by norm_num)]
    push_cast
    exact_mod_cast Nat.div_mul_le_self n 4294967296
  · rw [div_lt_iff (by norm_num)]
    have h : n < (n / 4294967296 + 1) * 4294967296 := by omega
    push_cast
    exact_mod_cast h

theorem jsMod_nat (n : Nat) : jsMod (n : ℚ) 4294967296 = ((n % 4294967296 : ℕ) : ℚ) := by
  unfold jsMod jsTrunc
  rw [if_pos (by positivity), floor_div_two32, sub_eq_iff_eq_add]
  have h : n = n % 4294967296 + 4294967296 * (n / 4294967296) := by omega
  nth_rewrite 1 [h]
  push_cast
  rw [show ((n : ℤ) / 4294967296) = ((n / 4294967296 : ℕ) : ℤ) from by omega, Int.cast_natCast]

theorem jsTrunc_natCast (n : Nat) : jsTrunc (n : ℚ) = (n : ℤ) := by
  unfold jsTrunc
  rw [if_pos (by positivity)]
  exact Int.floor_natCast n

theorem int_emod_eq (a b : ℤ) : a.emod b = a % b := rfl

theorem pat32_natCast (n : Nat) : pat32 (n : ℤ) = n % 4294967296 := by
  unfold pat32
  have h : (n : ℤ).emod 4294967296 = ((n % 4294967296 : ℕ) : ℤ) := by
    rw [int_emod_eq]
    omega
  rw [h]
  exact Int.toNat_natCast _

theorem Long.isNegative_iff (x : Long) :
    x.isNegative = true ↔ (x.unsigned = false ∧ 9223372036854775808 ≤ x.asU) := by
  have hh := x.hhigh
  have hl := x.hlow
  unfold isNegative toS32 asU
  simp only [Bool.and_eq_true, Bool.not_eq_true', decide_eq_true_eq]
  constructor
  · rintro ⟨h1, h2⟩
    refine ⟨h1, ?_⟩
    split at h2 <;> omega
  · rintro ⟨h1, h2⟩
    refine ⟨h1, ?_⟩
    have : 2147483648 ≤ x.high := by omega
    split <;> omega




theorem lor_shl16m (c x : Nat) : (c <<< 16) ||| (x % 65536) = 65536 * c + x % 65536 :=
  lor_shl16 c _ (Nat.mod_lt x (by norm_num))

theorem Long.fromNumGo_nat (k : Nat) (n : Nat) (u : Bool) (hn : n ≤ 9223372036854775806) :
    Long.fromNumGo (k + 1) (n : ℚ) u = Long.ofPat (n % 4294967296) (n / 4294967296) u := by
  have hle : (n : ℚ) ≤ 9223372036854775806 := by exact_mod_cast hn
  have hpos : (0 : ℚ) ≤ n := by positivity
  simp only [Long.fromNumGo]
  rw [if_neg (by rintro ⟨_, hq⟩; linarith), if_neg (by rintro ⟨_, hq⟩; linarith),
    if_neg (by rintro ⟨_, hq⟩; linarith), if_neg (by rintro ⟨_, hq⟩; linarith),
    if_neg (by intro hq; linarith)]
  unfold fromNumberCore
  rw [jsMod_nat, jsTrunc_natCast]
  have h2 : jsTrunc ((n : ℚ) / 4294967296) = ((n / 4294967296 : ℕ) : ℤ) := by
    unfold jsTrunc
    rw [if_pos (by positivity)]
    exact floor_div_two32 n
  rw [h2]
  unfold fromBits
  rw [pat32_natCast, pat32_natCast]
  apply Long.ext_fields
  · rw [Long.ofPat_low, Long.ofPat_low]
    omega
  · rw [Long.ofPat_high, Long.ofPat_high]
    omega
  · rfl

theorem Long.mulLimbs_unsigned (x y : Long) : (Long.mulLimbs x y).unsigned = x.unsigned := rfl

theorem Long.asU_mulLimbs (x y : Long) :
    (Long.mulLimbs x y).asU = (x.asU * y.asU) % 18446744073709551616 := by
  have hxl := x.hlow
  have hxh := x.hhigh
  have hyl := y.hlow
  have hyh := y.hhigh
  unfold mulLimbs
  simp only [land_65535, shiftr16, lor_shl16m, Long.asU_ofPat]
  set a48 := x.high / 65536 with ha48
  set a32 := x.high % 65536 with ha32
  set a16 := x.low / 65536 with ha16
  set a00 := x.low % 65536 with ha00
  set b48 := y.high / 65536 with hb48
  set b32 := y.high % 65536 with hb32
  set b16 := y.low / 65536 with hb16
  set b00 := y.low % 65536 with hb00
  have hA48 : a48 ≤ 65535 := by omega
  have hA32 : a32 ≤ 65535 := by omega
  have hA16 : a16 ≤ 65535 := by omega
  have hA00 : a00 ≤ 65535 := by omega
  have hB48 : b48 ≤ 65535 := by omega
  have hB32 : b32 ≤ 65535 := by omega
  have hB16 : b16 ≤ 65535 := by omega
  have hB00 : b00 ≤ 65535 := by omega
  have hx2 : x.asU = (65536 * a48 + a32) * 4294967296 + (65536 * a16 + a00) := by
    unfold asU
    omega
  have hy2 : y.asU = (65536 * b48 + b32) * 4294967296 + (65536 * b16 + b00) := by
    unfold asU
    omega
  have hprod : x.asU * y.asU =
      (a00 * b00 + 65536 * (a16 * b00 + a00 * b16)
        + 4294967296 * (a32 * b00 + a16 * b16 + a00 * b32)
        + 281474976710656 * (a48 * b00 + a32 * b16 + a16 * b32 + a00 * b48))
      + 18446744073709551616 * (a48 * b16 + a32 * b32 + a16 * b48
        + 65536 * (a48 * b32 + a32 * b48) + 4294967296 * (a48 * b48)) := by
    rw [hx2, hy2]
    ring
  rw [hprod, Nat.add_mul_mod_self_left]
  generalize hq1 : a00 * b00 = q1
  generalize hq2 : a16 * b00 = q2
  generalize hq3 : a00 * b16 = q3
  generalize hq4 : a32 * b00 = q4
  generalize hq5 : a16 * b16 = q5
  generalize hq6 : a00 * b32 = q6
  generalize hq7 : a48 * b00 = q7
  generalize hq8 : a32 * b16 = q8
  generalize hq9 : a16 * b32 = q9
  generalize hq10 : a00 * b48 = q10
  have hw1 : q1 ≤ 4294836225 := by rw [← hq1]; exact Nat.mul_le_mul hA00 hB00
  have hw2 : q2 ≤ 4294836225 := by rw [← hq2]; exact Nat.mul_le_mul hA16 hB00
  have hw3 : q3 ≤ 4294836225 := by rw [← hq3]; exact Nat.mul_le_mul hA00 hB16
  have hw4 : q4 ≤ 4294836225 := by rw [← hq4]; exact Nat.mul_le_mul hA32 hB00
  have hw5 : q5 ≤ 4294836225 := by rw [← hq5]; exact Nat.mul_le_mul hA16 hB16
  have hw6 : q6 ≤ 4294836225 := by rw [← hq6]; exact Nat.mul_le_mul hA00 hB32
  have hw7 : q7 ≤ 4294836225 := by rw [← hq7]; exact Nat.mul_le_mul hA48 hB00
  have hw8 : q8 ≤ 4294836225 := by rw [← hq8]; exact Nat.mul_le_mul hA32 hB16
  have hw9 : q9 ≤ 4294836225 := by rw [← hq9]; exact Nat.mul_le_mul hA16 hB32
  have hw10 : q10 ≤ 4294836225 := by rw [← hq10]; exact Nat.mul_le_mul hA00 hB48
  omega

theorem Long.eq_true_iff_of_high_small {x y : Long} (hy : y.high < 2147483648) :
    x.eq y = true ↔ (x.high = y.high ∧ x.low = y.low) := by
  unfold eq equals
  have hns : ¬(y.high >>> 31 = 1) := by
    rw [Nat.shiftRight_eq_div_pow]
    have : y.high / 2 ^ 31 = 0 := Nat.div_eq_of_lt (by omega)
    omega
  rw [if_neg (by rintro ⟨_, _, hc⟩; exact hns hc)]
  simp

theorem Long.toNumber_eq_asU {x : Long} (h : x.isNegative = false) :
    x.toNumber = (x.asU : ℚ) := by
  unfold toNumber
  by_cases hu : x.unsigned = true
  · rw [if_pos hu]
    unfold asU
    push_cast
    ring
  · have hu' : x.unsigned = false := by simpa using hu
    rw [if_neg (by simp [hu'])]
    have hh : x.high < 2147483648 := by
      by_contra hc
      rw [Bool.eq_false_iff] at h
      apply h
      rw [Long.isNegative_iff]
      have hl := x.hlow
      refine ⟨hu', ?_⟩
      unfold asU
      omega
    unfold toS32
    rw [if_pos hh]
    unfold asU
    push_cast
    ring

theorem Long.lt_T24_iff {x : Long} (hneg : x.isNegative = false) :
    x.lt Long.TWO_PWR_24 = true ↔ x.asU < 16777216 := by
  have hl := x.hlow
  have hh := x.hhigh
  have hT_high : Long.TWO_PWR_24.high = 0 := rfl
  have hT_low : Long.TWO_PWR_24.low = 16777216 := rfl
  have hT_asU : Long.TWO_PWR_24.asU = 16777216 := rfl
  unfold lt
  by_cases heq : x.eq Long.TWO_PWR_24 = true
  · have hfields := (Long.eq_true_iff_of_high_small (by rw [hT_high]; norm_num)).mp heq
    have hAs : x.asU = 16777216 := by
      unfold asU
      rw [hfields.1, hfields.2, hT_high, hT_low]
    unfold compare
    rw [if_pos heq]
    simp [hAs]
  · unfold compare
    rw [if_neg heq]
    have hTneg : Long.TWO_PWR_24.isNegative = false := rfl
    simp only [hneg, hTneg, Bool.false_eq_true, false_and, and_false, if_false,
      not_false_eq_true, true_and, false_and]
    by_cases hu : x.unsigned = true
    · rw [if_neg (by simp [hu])]
      rw [hT_high, hT_low]
      have hne : ¬(x.high = 0 ∧ x.low = 16777216) := by
        intro hc
        exact heq ((Long.eq_true_iff_of_high_small (by rw [hT_high]; norm_num)).mpr
          ⟨by omega, by omega⟩)
      unfold asU
      constructor
      · intro hlt
        split at hlt <;> rename_i hcond
        · omega
        · simp at hlt
      · intro hAs
        have hx0 : x.high = 0 := by omega
        have hxlow : x.low < 16777216 := by omega
        rw [if_pos (by omega)]
        simp
    · have hu' : x.unsigned = false := by simpa using hu
      rw [if_pos (by simp [hu'])]
      have hsu : (x.sub Long.TWO_PWR_24).unsigned = false := by
        rw [Long.sub_unsigned, hu']
      have hsub := Long.asU_sub x Long.TWO_PWR_24
      rw [hT_asU] at hsub
      have hxlt : x.asU < 9223372036854775808 := by
        by_contra hc
        rw [Bool.eq_false_iff] at hneg
        exact hneg ((Long.isNegative_iff x).mpr ⟨hu', by omega⟩)
      by_cases hcase : x.asU < 16777216
      · have hsneg : (x.sub Long.TWO_PWR_24).isNegative = true := by
          rw [Long.isNegative_iff]
          refine ⟨hsu, ?_⟩
          rw [hsub]
          omega
        rw [if_pos hsneg]
        simpa using hcase
      · have hsneg : (x.sub Long.TWO_PWR_24).isNegative = false := by
          rw [Bool.eq_false_iff]
          intro hc
          rw [Long.isNegative_iff, hsub] at hc
          omega
        rw [if_neg (by simp [hsneg])]
        simpa using hcase

theorem Long.MIN_asU : Long.MIN_VALUE.asU = 9223372036854775808 := rfl

theorem Long.MIN_isNegative : Long.MIN_VALUE.isNegative = true := rfl

theorem Long.fromNumber_num (q : ℚ) (u : Bool) :
    Long.fromNumber (.num q) u = Long.fromNumGo 2 q u := rfl

theorem Long.fromNumGo_two (n : Nat) (u : Bool) (hn : n ≤ 9223372036854775806) :
    Long.fromNumGo 2 (n : ℚ) u = Long.ofPat (n % 4294967296) (n / 4294967296) u :=
  Long.fromNumGo_nat 1 n u hn

theorem Long.mulSmall_spec {x y : Long} (hx : x.isNegative = false)
    (hy : y.isNegative = false) (hx24 : x.asU < 16777216) (hy24 : y.asU < 16777216) :
    (Long.mulSmall x y).asU = (x.asU * y.asU) % 18446744073709551616 ∧
    (Long.mulSmall x y).unsigned = x.unsigned := by
  unfold mulSmall
  rw [Long.fromNumber_num, Long.toNumber_eq_asU hx, Long.toNumber_eq_asU hy]
  have hcast : ((x.asU : ℚ)) * (y.asU : ℚ) = ((x.asU * y.asU : ℕ) : ℚ) := by push_cast; ring
  rw [hcast]
  have hbound : x.asU * y.asU < 281474976710656 := by
    calc x.asU * y.asU < 16777216 * 16777216 := by
          apply Nat.mul_lt_mul_of_lt_of_le (by omega) (by omega)
          omega
      _ = 281474976710656 := by norm_num
  rw [Long.fromNumGo_two _ _ (by omega)]
  refine ⟨?_, rfl⟩
  rw [Long.asU_ofPat]
  omega

theorem Long.isNegative_negate_false {x : Long} (hneg : x.isNegative = true)
    (hmin : x.eq Long.MIN_VALUE = false) : x.negate.isNegative = false := by
  rw [Long.isNegative_iff] at hneg
  obtain ⟨hu, hge⟩ := hneg
  have hne : x.asU ≠ 9223372036854775808 := by
    intro hc
    rw [Bool.eq_false_iff] at hmin
    apply hmin
    rw [Long.eq_MIN_iff]
    exact Long.eq_of_asU (by rw [hu]; rfl) (by rw [hc, Long.MIN_asU])
  have hlt := x.asU_lt
  rw [Bool.eq_false_iff]
  intro hc
  rw [Long.isNegative_iff, Long.asU_negate] at hc
  omega

theorem Long.asU_negate_of_neg {x : Long} (hneg : x.isNegative = true)
    (hmin : x.eq Long.MIN_VALUE = false) :
    x.negate.asU = 18446744073709551616 - x.asU := by
  rw [Long.asU_negate]
  rw [Long.isNegative_iff] at hneg
  have hlt := x.asU_lt
  omega

theorem Long.mulGo_nonneg_spec (k : Nat) (hk : k ≠ 0) {x y : Long} (hx : x.isNegative = false)
    (hy : y.isNegative = false) (hu : x.unsigned = y.unsigned) :
    (Long.mulGo k x y).asU = (x.asU * y.asU) % 18446744073709551616 ∧
    (Long.mulGo k x y).unsigned = x.unsigned := by
  obtain ⟨m, rfl⟩ : ∃ m, k = m + 1 := ⟨k - 1, by omega⟩
  rw [Long.mulGo]
  by_cases hz1 : x.isZero = true
  · rw [if_pos hz1]
    have h0 := (Long.isZero_iff x).mp hz1
    rw [h0]
    simp
  rw [if_neg (by simp [hz1])]
  by_cases hz2 : y.isZero = true
  · rw [if_pos hz2]
    have h0 := (Long.isZero_iff y).mp hz2
    rw [h0]
    constructor
    · cases hux : x.unsigned <;> simp [hux] <;> rfl
    · cases hux : x.unsigned <;> simp [hux] <;> rfl
  rw [if_neg (by simp [hz2])]
  by_cases hm1 : x.eq Long.MIN_VALUE = true
  · exfalso
    rw [Long.eq_MIN_iff] at hm1
    rw [hm1, Long.MIN_isNegative] at hx
    simp at hx
  rw [if_neg (by simp [hm1])]
  by_cases hm2 : y.eq Long.MIN_VALUE = true
  · exfalso
    rw [Long.eq_MIN_iff] at hm2
    rw [hm2, Long.MIN_isNegative] at hy
    simp at hy
  rw [if_neg (by simp [hm2])]
  rw [if_neg (by simp [hx]), if_neg (by simp [hy])]
  by_cases hsmall : (x.lt Long.TWO_PWR_24 && y.lt Long.TWO_PWR_24) = true
  · rw [if_pos hsmall]
    rw [Bool.and_eq_true] at hsmall
    exact Long.mulSmall_spec hx hy
      ((Long.lt_T24_iff hx).mp hsmall.1) ((Long.lt_T24_iff hy).mp hsmall.2)
  · rw [if_neg hsmall]
    exact ⟨Long.asU_mulLimbs x y, Long.mulLimbs_unsigned x y⟩

theorem zmodN_self : (18446744073709551616 : ZMod 18446744073709551616) = 0 := by
  have h := ZMod.natCast_self 18446744073709551616
  exact_mod_cast h

theorem mod_mul_neg_neg (A B : ℕ) (hA : A ≤ 18446744073709551616)
    (hB : B ≤ 18446744073709551616) :
    ((18446744073709551616 - A) * (18446744073709551616 - B)) % 18446744073709551616
      = (A * B) % 18446744073709551616 := by
  have h : ((18446744073709551616 - A) * (18446744073709551616 - B))
      ≡ A * B [MOD 18446744073709551616] := by
    apply (ZMod.natCast_eq_natCast_iff _ _ _).mp
    push_cast [Nat.cast_sub hA, Nat.cast_sub hB]
    rw [zmodN_self]
    ring
  exact h

theorem mod_mul_neg_one (A B : ℕ) (hA : A ≤ 18446744073709551616) :
    (18446744073709551616 - ((18446744073709551616 - A) * B) % 18446744073709551616)
      % 18446744073709551616 = (A * B) % 18446744073709551616 := by
  have hk : ((18446744073709551616 - A) * B) % 18446744073709551616
      ≤ 18446744073709551616 := le_of_lt (Nat.mod_lt _ (by norm_num))
  have h : (18446744073709551616 - ((18446744073709551616 - A) * B) % 18446744073709551616)
      ≡ A * B [MOD 18446744073709551616] := by
    apply (ZMod.natCast_eq_natCast_iff _ _ _).mp
    push_cast [Nat.cast_sub hA, Nat.cast_sub hk, castN_mod]
    rw [zmodN_self]
    ring
  exact h

theorem Long.asU_multiply {x y : Long} (hu : x.unsigned = y.unsigned) :
    (x.multiply y).asU = (x.asU * y.asU) % 18446744073709551616 ∧
    (x.multiply y).unsigned = x.unsigned := by
  unfold multiply
  rw [Long.mulGo]
  by_cases hz1 : x.isZero = true
  · rw [if_pos hz1]
    have h0 := (Long.isZero_iff x).mp hz1
    rw [h0]
    simp
  rw [if_neg (by simp [hz1])]
  by_cases hz2 : y.isZero = true
  · rw [if_pos hz2]
    have h0 := (Long.isZero_iff y).mp hz2
    rw [h0]
    constructor
    · cases hux : x.unsigned <;> simp [hux] <;> rfl
    · cases hux : x.unsigned <;> simp [hux] <;> rfl
  rw [if_neg (by simp [hz2])]
  by_cases hm1 : x.eq Long.MIN_VALUE = true
  · rw [if_pos hm1]
    rw [Long.eq_MIN_iff] at hm1
    subst hm1
    have hyb := y.asU_lt
    have hyp : y.asU % 2 = y.low % 2 := by unfold asU; omega
    by_cases ho : y.isOdd = true
    · rw [if_pos ho]
      unfold isOdd at ho
      simp only [decide_eq_true_eq] at ho
      refine ⟨?_, rfl⟩
      rw [Long.MIN_asU]
      omega
    · rw [if_neg (by simp [ho])]
      unfold isOdd at ho
      simp only [decide_eq_true_eq] at ho
      refine ⟨?_, rfl⟩
      rw [Long.MIN_asU]
      have h2 : y.low % 2 = 0 := by omega
      show (0 : ℕ) = _
      omega
  rw [if_neg (by simp [hm1])]
  by_cases hm2 : y.eq Long.MIN_VALUE = true
  · rw [if_pos hm2]
    rw [Long.eq_MIN_iff] at hm2
    subst hm2
    have hxu : x.unsigned = false := by rw [hu]; rfl
    have hxb := x.asU_lt
    have hxp : x.asU % 2 = x.low % 2 := by unfold asU; omega
    by_cases ho : x.isOdd = true
    · rw [if_pos ho]
      unfold isOdd at ho
      simp only [decide_eq_true_eq] at ho
      refine ⟨?_, by rw [hxu]; rfl⟩
      rw [Long.MIN_asU]
      omega
    · rw [if_neg (by simp [ho])]
      unfold isOdd at ho
      simp only [decide_eq_true_eq] at ho
      refine ⟨?_, by rw [hxu]; rfl⟩
      rw [Long.MIN_asU]
      have h2 : x.low % 2 = 0 := by omega
      show (0 : ℕ) = _
      omega
  rw [if_neg (by simp [hm2])]
  have hxb := x.asU_lt
  have hyb := y.asU_lt
  by_cases hxn : x.isNegative = true
  · rw [if_pos hxn]
    have hxmin : x.eq Long.MIN_VALUE = false := by simpa using hm1
    have hxnn := Long.isNegative_negate_false hxn hxmin
    have hxA := Long.asU_negate_of_neg hxn hxmin
    by_cases hyn : y.isNegative = true
    · rw [if_pos hyn]
      have hymin : y.eq Long.MIN_VALUE = false := by simpa using hm2
      have hynn := Long.isNegative_negate_false hyn hymin
      have hyB := Long.asU_negate_of_neg hyn hymin
      have hu2 : x.negate.unsigned = y.negate.unsigned := by
        rw [Long.negate_unsigned, Long.negate_unsigned, hu]
      obtain ⟨hv, hf⟩ := Long.mulGo_nonneg_spec 1 (by decide) hxnn hynn hu2
      refine ⟨?_, by rw [hf, Long.negate_unsigned]⟩
      rw [hv, hxA, hyB]
      exact mod_mul_neg_neg _ _ (by omega) (by omega)
    · rw [if_neg (by simp [hyn])]
      have hynn : y.isNegative = false := by simpa using hyn
      have hu2 : x.negate.unsigned = y.unsigned := by rw [Long.negate_unsigned, hu]
      obtain ⟨hv, hf⟩ := Long.mulGo_nonneg_spec 1 (by decide) hxnn hynn hu2
      refine ⟨?_, by rw [Long.negate_unsigned, hf, Long.negate_unsigned]⟩
      rw [Long.asU_negate, hv, hxA]
      exact mod_mul_neg_one _ _ (by omega)
  rw [if_neg (by simp [hxn])]
  have hxnn : x.isNegative = false := by simpa using hxn
  by_cases hyn : y.isNegative = true
  · rw [if_pos hyn]
    have hymin : y.eq Long.MIN_VALUE = false := by simpa using hm2
    have hynn := Long.isNegative_negate_false hyn hymin
    have hyB := Long.asU_negate_of_neg hyn hymin
    have hu2 : x.unsigned = y.negate.unsigned := by rw [Long.negate_unsigned, hu]
    obtain ⟨hv, hf⟩ := Long.mulGo_nonneg_spec 1 (by decide) hxnn hynn hu2
    refine ⟨?_, by rw [Long.negate_unsigned, hf]⟩
    rw [Long.asU_negate, hv, hyB]
    rw [show x.asU * (18446744073709551616 - y.asU)
        = (18446744073709551616 - y.asU) * x.asU from by ring,
      show x.asU * y.asU = y.asU * x.asU from by ring]
    exact mod_mul_neg_one _ _ (by omega)
  · rw [if_neg (by simp [hyn])]
    have hynn : y.isNegative = false := by simpa using hyn
    by_cases hsmall : (x.lt Long.TWO_PWR_24 && y.lt Long.TWO_PWR_24) = true
    · rw [if_pos hsmall]
      rw [Bool.and_eq_true] at hsmall
      exact Long.mulSmall_spec hxnn hynn
        ((Long.lt_T24_iff hxnn).mp hsmall.1) ((Long.lt_T24_iff hynn).mp hsmall.2)
    · rw [if_neg hsmall]
      exact ⟨Long.asU_mulLimbs x y, Long.mulLimbs_unsigned x y⟩

theorem Long.shiftLeft_unsigned (x : Long) (n : Int) :
    (x.shiftLeft n).unsigned = x.unsigned := by
  unfold shiftLeft
  dsimp only
  split
  · rfl
  split <;> rfl

theorem Long.shiftRight_unsigned (x : Long) (n : Int) :
    (x.shiftRight n).unsigned = x.unsigned := by
  unfold shiftRight
  dsimp only
  split
  · rfl
  split
  · rfl
  rfl

theorem Long.isZero_negate (x : Long) : x.negate.isZero = x.isZero := by
  have hlt := x.asU_lt
  by_cases h : x.isZero = true
  · have h0 := (Long.isZero_iff x).mp h
    have hz : x.negate.asU = 0 := by
      rw [Long.asU_negate, h0]
    rw [h]
    exact (Long.isZero_iff _).mpr hz
  · have hA : x.asU ≠ 0 := fun hc => h ((Long.isZero_iff x).mpr hc)
    have hz : x.negate.asU ≠ 0 := by
      rw [Long.asU_negate]
      omega
    rw [show x.isZero = false from by simpa using h, Bool.eq_false_iff]
    intro hc
    exact hz ((Long.isZero_iff _).mp hc)

theorem Long.isZero_toUnsigned (x : Long) : x.toUnsigned.isZero = x.isZero := by
  unfold toUnsigned
  split
  · rfl
  · unfold isZero
    rw [Long.ofPat_low, Long.ofPat_high,
      Nat.mod_eq_of_lt x.hlow, Nat.mod_eq_of_lt x.hhigh]

theorem Long.divLoop_ok_unsigned (o : DivOracle) (u : Bool) (d : Long) :
    ∀ fuel res rem q, Long.divLoop o u d fuel res rem = .ok q → q.unsigned = res.unsigned := by
  intro fuel
  induction fuel with
  | zero =>
    intro res rem q h
    simp [Long.divLoop] at h
  | succ n ih =>
    intro res rem q h
    rw [Long.divLoop] at h
    split at h
    · dsimp only at h
      split at h
      · simp at h
      · have h2 := ih _ _ _ h
        rw [h2, Long.add_unsigned]
    · cases h
      rfl

theorem Long.divLoop_ne_divByZero (o : DivOracle) (u : Bool) (d : Long) :
    ∀ fuel res rem, Long.divLoop o u d fuel res rem ≠ .error .divByZero := by
  intro fuel
  induction fuel with
  | zero =>
    intro res rem h
    simp [Long.divLoop] at h
  | succ n ih =>
    intro res rem h
    rw [Long.divLoop] at h
    split at h
    · dsimp only at h
      split at h
      · simp at h
      · exact ih _ _ h
    · simp at h

theorem Long.divide_ok_unsigned (o : DivOracle) :
    ∀ fuel a b q, Long.divide o fuel a b = .ok q → q.unsigned = a.unsigned := by
  intro fuel
  induction fuel with
  | zero =>
    intro a b q h
    simp [Long.divide] at h
  | succ n ih =>
    intro a b q h
    rw [Long.divide] at h
    split at h
    · simp at h
    split at h
    · cases h
      cases hu : a.unsigned <;> rfl
    split at h
    case isTrue ha =>
      have ha' : a.unsigned = false := by simpa using ha
      split at h
      case isTrue hmin =>
        split at h
        · cases h
          rw [ha']
          rfl
        split at h
        · cases h
          rw [ha']
          rfl
        try dsimp only at h
        split at h
        · simp at h
        case h_2 v hv =>
          split at h
          · cases h
            rw [ha']
            split <;> rfl
          try dsimp only at h
          split at h
          · simp at h
          case h_2 r2 hr2 =>
            cases h
            rw [Long.add_unsigned]
            have h1 : (v.shl 1).unsigned = v.unsigned := Long.shiftLeft_unsigned v 1
            have h2 : (a.shr 1).unsigned = a.unsigned := Long.shiftRight_unsigned a 1
            rw [h1, ih _ _ _ hv, h2]
      case isFalse hmin =>
        split at h
        · cases h
          rw [ha']
          rfl
        split at h
        case isTrue hneg =>
          split at h
          case isTrue hbneg =>
            rw [ih _ _ _ h, Long.negate_unsigned]
          case isFalse hbneg =>
            try dsimp only at h
            split at h
            · simp at h
            case h_2 r hr =>
              cases h
              rw [Long.negate_unsigned, ih _ _ _ hr, Long.negate_unsigned]
        case isFalse hneg =>
          split at h
          case isTrue hbneg =>
            try dsimp only at h
            split at h
            · simp at h
            case h_2 r hr =>
              cases h
              rw [Long.negate_unsigned, ih _ _ _ hr]
          case isFalse hbneg =>
            rw [Long.divLoop_ok_unsigned o _ _ _ _ _ _ h, ha']
            rfl
    case isFalse ha =>
      have ha' : a.unsigned = true := by simpa using ha
      try dsimp only at h
      split at h
      all_goals
        split at h
        · cases h
          rw [ha']
          rfl
        split at h
        · cases h
          rw [ha']
          rfl
        rw [Long.divLoop_ok_unsigned o _ _ _ _ _ _ h, ha']
        rfl

theorem Long.divide_zero (o : DivOracle) (fuel : Nat) (a b : Long) (hb : b.isZero = true) :
    Long.divide o (fuel + 1) a b = .error .divByZero := by
  rw [Long.divide, if_pos hb]

theorem Long.modulo_zero (o : DivOracle) (fuel : Nat) (a b : Long) (hb : b.isZero = true) :
    Long.modulo o (fuel + 1) a b = .error .divByZero := by
  unfold modulo
  rw [Long.divide_zero o fuel a b hb]

theorem Long.divide_ne_divByZero (o : DivOracle) :
    ∀ fuel a b, b.isZero = false → Long.divide o fuel a b ≠ .error .divByZero := by
  intro fuel
  induction fuel with
  | zero =>
    intro a b hb h
    simp [Long.divide] at h
  | succ n ih =>
    intro a b hb h
    rw [Long.divide, if_neg (by simp [hb])] at h
    split at h
    · simp at h
    split at h
    case isTrue ha =>
      split at h
      case isTrue hmin =>
        split at h
        · simp at h
        split at h
        · simp at h
        try dsimp only at h
        split at h
        case h_1 e he =>
          cases h
          exact ih _ _ hb he
        case h_2 v hv =>
          split at h
          · simp at h
          try dsimp only at h
          split at h
          case h_1 e he =>
            cases h
            exact ih _ _ hb he
          case h_2 r2 hr2 =>
            simp at h
      case isFalse hmin =>
        split at h
        · simp at h
        split at h
        case isTrue hneg =>
          split at h
          case isTrue hbneg =>
            exact ih _ _ (by rw [Long.isZero_negate]; exact hb) h
          case isFalse hbneg =>
            try dsimp only at h
            split at h
            case h_1 e he =>
              cases h
              exact ih _ _ hb he
            case h_2 r hr =>
              simp at h
        case isFalse hneg =>
          split at h
          case isTrue hbneg =>
            try dsimp only at h
            split at h
            case h_1 e he =>
              cases h
              exact ih _ _ (by rw [Long.isZero_negate]; exact hb) he
            case h_2 r hr =>
              simp at h
          case isFalse hbneg =>
            exact Long.divLoop_ne_divByZero o _ _ _ _ _ h
    case isFalse ha =>
      try dsimp only at h
      split at h
      all_goals
        split at h
        · simp at h
        split at h
        · simp at h
        exact Long.divLoop_ne_divByZero o _ _ _ _ _ h

theorem Long.modulo_ne_divByZero (o : DivOracle) (fuel : Nat) (a b : Long)
    (hb : b.isZero = false) : Long.modulo o fuel a b ≠ .error .divByZero := by
  unfold modulo
  intro h
  split at h
  case h_1 e he =>
    cases h
    exact Long.divide_ne_divByZero o fuel a b hb he
  case h_2 q hq =>
    simp at h

theorem floor_div_two32_rat (q : ℚ) (hq : 0 ≤ q) :
    ⌊q / 4294967296⌋ = ((⌊q⌋.toNat / 4294967296 : ℕ) : ℤ) := by
  have h0 : 0 ≤ ⌊q⌋ := Int.floor_nonneg.mpr hq
  have hfn : (⌊q⌋ : ℤ) = (⌊q⌋.toNat : ℤ) := by omega
  have hl : ((⌊q⌋.toNat : ℕ) : ℚ) ≤ q := by
    have h := Int.floor_le q
    rw [hfn] at h
    push_cast at h
    exact_mod_cast h
  have hup : q < (⌊q⌋.toNat : ℕ) + 1 := by
    have h := Int.lt_floor_add_one q
    rw [hfn] at h
    push_cast at h
    exact_mod_cast h
  rw [Int.floor_eq_iff]
  constructor
  · rw [le_div_iff (by norm_num)]
    push_cast
    calc ((⌊q⌋.toNat / 4294967296 : ℕ) : ℚ) * 4294967296
        ≤ (⌊q⌋.toNat : ℕ) := by exact_mod_cast Nat.div_mul_le_self ⌊q⌋.toNat 4294967296
      _ ≤ q := hl
  · rw [div_lt_iff (by norm_num)]
    push_cast
    calc q < (⌊q⌋.toNat : ℕ) + 1 := hup
      _ ≤ (((⌊q⌋.toNat / 4294967296 : ℕ) : ℚ) + 1) * 4294967296 := by
          exact_mod_cast (by omega : ⌊q⌋.toNat + 1 ≤ (⌊q⌋.toNat / 4294967296 + 1) * 4294967296)

theorem Long.ofInt64_unsigned (k : ℤ) (u : Bool) : (Long.ofInt64 k u).unsigned = u := rfl

theorem Long.asU_ofInt64 (k : ℤ) (u : Bool) :
    (Long.ofInt64 k u).asU = (k.emod 18446744073709551616).toNat := by
  unfold ofInt64
  rw [Long.asU_ofPat]
  have hb : (k.emod 18446744073709551616).toNat < 18446744073709551616 := by
    have h1 : (0 : ℤ) ≤ k.emod 18446744073709551616 := by
      rw [int_emod_eq]
      omega
    have h2 : k.emod 18446744073709551616 < 18446744073709551616 := by
      rw [int_emod_eq]
      omega
    omega
  omega

theorem Long.fromNumberCore_eq (q : ℚ) (u : Bool) (h0 : 0 ≤ q)
    (h64 : q < 18446744073709551616) :
    Long.fromNumberCore q u = Long.ofInt64 ⌊q⌋ u := by
  have hf0 : 0 ≤ ⌊q⌋ := Int.floor_nonneg.mpr h0
  have hfn : (⌊q⌋ : ℤ) = (⌊q⌋.toNat : ℤ) := by omega
  have hflt : ⌊q⌋.toNat < 18446744073709551616 := by
    have h := lt_of_le_of_lt (Int.floor_le q) h64
    have h2 : ⌊q⌋ < (18446744073709551616 : ℤ) := by exact_mod_cast h
    omega
  have hdiv : jsTrunc (q / 4294967296) = ((⌊q⌋.toNat / 4294967296 : ℕ) : ℤ) := by
    unfold jsTrunc
    rw [if_pos (by positivity), floor_div_two32_rat q h0]
  have hKle : ((4294967296 * (⌊q⌋.toNat / 4294967296) : ℕ) : ℚ) ≤ q := by
    have h1 : (4294967296 * (⌊q⌋.toNat / 4294967296) : ℕ) ≤ ⌊q⌋.toNat := by omega
    have h2 : ((⌊q⌋.toNat : ℕ) : ℚ) ≤ q := by
      have h := Int.floor_le q
      rw [hfn] at h
      push_cast at h
      exact_mod_cast h
    calc ((4294967296 * (⌊q⌋.toNat / 4294967296) : ℕ) : ℚ) ≤ ((⌊q⌋.toNat : ℕ) : ℚ) := by
          exact_mod_cast h1
      _ ≤ q := h2
  have hmodv : jsMod q 4294967296
      = q - ((4294967296 * (⌊q⌋.toNat / 4294967296) : ℕ) : ℚ) := by
    unfold jsMod
    rw [hdiv, Int.cast_natCast, Nat.cast_mul]
    norm_num
  have hmod : jsTrunc (jsMod q 4294967296) = ((⌊q⌋.toNat % 4294967296 : ℕ) : ℤ) := by
    rw [hmodv]
    unfold jsTrunc
    rw [if_pos (by linarith)]
    rw [show ((4294967296 * (⌊q⌋.toNat / 4294967296) : ℕ) : ℚ)
        = (((4294967296 * (⌊q⌋.toNat / 4294967296) : ℕ) : ℤ) : ℚ) from (Int.cast_natCast _).symm]
    rw [Int.floor_sub_int]
    omega
  unfold fromNumberCore fromBits
  rw [hmod, hdiv, pat32_natCast, pat32_natCast]
  unfold ofInt64
  have hemod : (⌊q⌋.emod 18446744073709551616).toNat = ⌊q⌋.toNat := by
    rw [int_emod_eq]
    omega
  rw [hemod]
  apply Long.ext_fields
  · rw [Long.ofPat_low, Long.ofPat_low]
    omega
  · rw [Long.ofPat_high, Long.ofPat_high]
    omega
  · rfl

theorem Long.fromNumber_eq_spec (v : JSNum) (u : Bool) :
    Long.fromNumber v u = Long.fromNumberSpec v u := by
  cases v with
  | nan => rfl
  | num q =>
    rw [Long.fromNumber_num]
    simp only [Long.fromNumberSpec]
    cases u with
    | true =>
      rw [Long.fromNumGo, if_pos (show true = true from rfl)]
      by_cases h1 : q < 0
      · rw [if_pos (show (true = true) ∧ q < 0 from ⟨rfl, h1⟩), if_pos h1]
      rw [if_neg (fun hc => h1 hc.2), if_neg h1]
      by_cases h2 : (18446744073709551616 : ℚ) ≤ q
      · rw [if_pos (show (true = true) ∧ (18446744073709551616 : ℚ) ≤ q from ⟨rfl, h2⟩),
          if_pos h2, if_neg h1]
      rw [if_neg (fun hc => h2 hc.2), if_neg h2]
      rw [if_neg (fun hc => absurd rfl hc.1), if_neg (fun hc => absurd rfl hc.1), if_neg h1]
      have h0 : 0 ≤ q := not_lt.mp h1
      have h64 : q < 18446744073709551616 := not_le.mp h2
      rw [Long.fromNumberCore_eq q true h0 h64]
      have hjt : jsTrunc q = ⌊q⌋ := by unfold jsTrunc; rw [if_pos h0]
      rw [hjt]
    | false =>
      rw [Long.fromNumGo, if_neg (show ¬false = true from by simp)]
      rw [if_neg (fun hc => absurd hc.1 (by simp)), if_neg (fun hc => absurd hc.1 (by simp))]
      by_cases h1 : q ≤ -(9223372036854775808 : ℚ)
      · rw [if_pos ⟨by simp, h1⟩, if_pos h1]
      rw [if_neg (fun hc => h1 hc.2), if_neg h1]
      by_cases h2 : (9223372036854775808 : ℚ) ≤ q + 1
      · rw [if_pos ⟨by simp, h2⟩, if_pos h2]
      rw [if_neg (fun hc => h2 hc.2), if_neg h2]
      by_cases h3 : q < 0
      · rw [if_pos h3, Long.fromNumGo]
        rw [if_neg (fun hc => absurd hc.1 (by simp)), if_neg (fun hc => absurd hc.1 (by simp))]
        rw [if_neg (fun hc => by linarith [hc.2])]
        by_cases h4 : (9223372036854775808 : ℚ) ≤ -q + 1
        · rw [if_pos ⟨by simp, h4⟩]
          have hfl : ⌊-q⌋ = 9223372036854775807 := by
            rw [Int.floor_eq_iff]
            constructor
            · push_cast
              linarith
            · push_cast
              linarith
          have hjt : jsTrunc q = -9223372036854775807 := by
            unfold jsTrunc
            rw [if_neg (by linarith), hfl]
          rw [hjt]
          decide
        · rw [if_neg (fun hc => h4 hc.2), if_neg (by linarith)]
          have h0' : (0 : ℚ) ≤ -q := by linarith
          have h64' : -q < 18446744073709551616 := by linarith
          rw [Long.fromNumberCore_eq (-q) false h0' h64']
          have hjt : jsTrunc q = -⌊-q⌋ := by unfold jsTrunc; rw [if_neg (by linarith)]
          rw [hjt]
          have hm0 : 0 ≤ ⌊-q⌋ := Int.floor_nonneg.mpr h0'
          have hmlt : ⌊-q⌋ < 9223372036854775807 := by
            have h := lt_of_le_of_lt (Int.floor_le (-q))
              (by linarith : -q < (9223372036854775807 : ℚ))
            exact_mod_cast h
          apply Long.eq_of_asU
          · rw [Long.negate_unsigned, Long.ofInt64_unsigned, Long.ofInt64_unsigned]
          · rw [Long.asU_negate, Long.asU_ofInt64, Long.asU_ofInt64, int_emod_eq, int_emod_eq]
            omega
      · rw [if_neg h3]
        have h0 : 0 ≤ q := not_lt.mp h3
        have h64 : q < 18446744073709551616 := by linarith
        rw [Long.fromNumberCore_eq q false h0 h64]
        have hjt : jsTrunc q = ⌊q⌋ := by unfold jsTrunc; rw [if_pos h0]
        rw [hjt]

theorem Long.equals_self (x : Long) : x.equals x = true := by
  unfold equals
  rw [if_neg (by rintro ⟨hne, _⟩; exact hne rfl)]
  simp

theorem Long.fromString_interior_hyphen (s : List Char) (u : Bool) (radix : Int) (p : Nat)
    (hfind : s.findIdx? (fun c => c = '-') = some p) (hp : 0 < p)
    (hr2 : 2 ≤ radix) (hr36 : radix ≤ 36) :
    Long.fromString s u radix = .error .interiorHyphen := by
  obtain ⟨p2, rfl⟩ : ∃ p2, p = p2 + 1 := ⟨p - 1, by omega⟩
  cases s with
  | nil => simp [List.findIdx?] at hfind
  | cons c rest =>
    rw [Long.fromString]
    have htok : ¬(c :: rest = "NaN".toList ∨ c :: rest = "Infinity".toList ∨
        c :: rest = "+Infinity".toList ∨ c :: rest = "-Infinity".toList) := by
      rintro (h | h | h | h)
      · rw [h, show List.findIdx? (fun c => c = '-') ("NaN".toList) = none from rfl] at hfind
        exact Option.noConfusion hfind
      · rw [h,
          show List.findIdx? (fun c => c = '-') ("Infinity".toList) = none from rfl] at hfind
        exact Option.noConfusion hfind
      · rw [h,
          show List.findIdx? (fun c => c = '-') ("+Infinity".toList) = none from rfl] at hfind
        exact Option.noConfusion hfind
      · rw [h,
          show List.findIdx? (fun c => c = '-') ("-Infinity".toList) = some 0 from rfl] at hfind
        have h0 := Option.some.inj hfind
        omega
    rw [if_neg htok]
    dsimp only
    rw [if_neg (show ¬(radix = 0) from by omega),
      if_neg (show ¬(radix < 2 ∨ 36 < radix) from by omega), hfind]

theorem Long.fromString_invalid_radix (s : List Char) (u : Bool) (radix : Int)
    (hne : s ≠ []) (ht1 : s ≠ "NaN".toList) (ht2 : s ≠ "Infinity".toList)
    (ht3 : s ≠ "+Infinity".toList) (ht4 : s ≠ "-Infinity".toList)
    (hr0 : radix ≠ 0) (hr : radix < 2 ∨ 36 < radix) :
    Long.fromString s u radix = .error .radixRange := by
  cases s with
  | nil => exact absurd rfl hne
  | cons c rest =>
    rw [Long.fromString]
    rw [if_neg (by
      rintro (h | h | h | h)
      · exact ht1 h
      · exact ht2 h
      · exact ht3 h
      · exact ht4 h)]
    dsimp only
    rw [if_neg hr0, if_pos hr]

/-! ## Claim theorems -/

/-- C1: the claim says `rotateLeft(n)` always returns the 64-bit left
rotation.  In the source, for reduced bit counts 33..63 `rotateLeft` has no
return statement on its final path (it computes `numBits -= 32;
b = (32 - numBits);` and falls off the end of the function), so the call
returns `undefined` instead of a `Long`: rotating `ONE` left by 33 yields no
value. -/
theorem c1_rotateLeft_undefined_above_32 : Long.rotateLeft Long.ONE 33 = none := by decide

/-- C2: for every division oracle (standing for the unspecifiable
floating-point approximation inside the division loop) and fuel, whenever
`divide` returns a quotient `q` and `modulo` returns a remainder `r` for a
nonzero divisor `b` of the same signedness as `a`, the identity
`a.equals(a.div(b).mul(b).add(a.mod(b)))` holds exactly in wrapping 64-bit
arithmetic. -/
theorem c2_divmod_reconstruction (o : DivOracle) (fuel : Nat) (a b q r : Long)
    (hsign : a.unsigned = b.unsigned) (hb : b.isZero = false)
    (hq : Long.divide o fuel a b = .ok q) (hr : Long.modulo o fuel a b = .ok r) :
    a.equals ((q.multiply b).add r) = true := by
  unfold Long.modulo at hr
  rw [hq] at hr
  cases hr
  have hqu : q.unsigned = a.unsigned := Long.divide_ok_unsigned o fuel a b q hq
  obtain ⟨hmv, hmf⟩ := Long.asU_multiply (x := q) (y := b) (by rw [hqu, hsign])
  have hXu : ((q.multiply b).add (a.sub (q.multiply b))).unsigned = a.unsigned := by
    rw [Long.add_unsigned, hmf, hqu]
  have hXv : ((q.multiply b).add (a.sub (q.multiply b))).asU = a.asU := by
    rw [Long.asU_add, Long.asU_sub]
    have h1 := (q.multiply b).asU_lt
    have h2 := a.asU_lt
    omega
  have hax : a = (q.multiply b).add (a.sub (q.multiply b)) :=
    Long.eq_of_asU hXu.symm hXv.symm
  rw [← hax]
  exact Long.equals_self a

/-- Witness for C2 at `a = 7`, `b = 2` (signed), with the unit oracle:
`7 / 2 = 3`, `7 % 2 = 1`, and `7 = 3 * 2 + 1`. -/
theorem c2_divmod_reconstruction_witness :
    Long.divide Long.unitOracle 20 (Long.fromInt 7 false) (Long.fromInt 2 false)
      = .ok (Long.fromInt 3 false) ∧
    Long.modulo Long.unitOracle 20 (Long.fromInt 7 false) (Long.fromInt 2 false)
      = .ok (Long.fromInt 1 false) ∧
    (Long.fromInt 7 false).equals
      (((Long.fromInt 3 false).multiply (Long.fromInt 2 false)).add
        (Long.fromInt 1 false)) = true :=
  ⟨by decide, by decide,
    c2_divmod_reconstruction Long.unitOracle 20 (Long.fromInt 7 false) (Long.fromInt 2 false)
      (Long.fromInt 3 false) (Long.fromInt 1 false) (by decide) (by decide)
      (by decide) (by decide)⟩

/-- C3: with a zero divisor, `divide` and `modulo` fail immediately with the
division-by-zero error (for any dividend, signed or unsigned, and any fuel
budget); with a nonzero divisor they never raise that error. -/
theorem c3_division_by_zero (o : DivOracle) (fuel : Nat) (a b : Long) :
    (b.isZero = true →
      Long.divide o (fuel + 1) a b = .error .divByZero ∧
      Long.modulo o (fuel + 1) a b = .error .divByZero) ∧
    (b.isZero = false →
      Long.divide o fuel a b ≠ .error .divByZero ∧
      Long.modulo o fuel a b ≠ .error .divByZero) :=
  ⟨fun hb => ⟨Long.divide_zero o fuel a b hb, Long.modulo_zero o fuel a b hb⟩,
   fun hb => ⟨Long.divide_ne_divByZero o fuel a b hb,
     Long.modulo_ne_divByZero o fuel a b hb⟩⟩

/-- Witness for C3: dividing 7 by zero raises the division-by-zero error;
dividing unsigned 7 by unsigned 3 does not. -/
theorem c3_division_by_zero_witness :
    Long.divide Long.unitOracle (20 + 1) (Long.fromInt 7 false) Long.ZERO
      = .error .divByZero ∧
    Long.modulo Long.unitOracle 20 (Long.fromInt 7 true) (Long.fromInt 3 true)
      ≠ .error .divByZero :=
  ⟨((c3_division_by_zero Long.unitOracle 20 (Long.fromInt 7 false) Long.ZERO).1
      (by decide)).1,
   ((c3_division_by_zero Long.unitOracle 20 (Long.fromInt 7 true) (Long.fromInt 3 true)).2
      (by decide)).2⟩

/-- C5 counterexample: the claim says `fromNumber` returns the *nearest*
representable integer.  At `x = 7/4 = 1.75` the nearest 64-bit integer is 2
(distance 1/4 versus 3/4), but the code truncates toward zero and returns 1. -/
theorem c5_fromNumber_not_nearest :
    Long.fromNumber (.num (7 / 4)) false = Long.fromInt 1 false ∧
    Long.fromInt 1 false ≠ Long.fromInt 2 false ∧
    ((2 : ℚ) - 7 / 4) < (7 / 4 : ℚ) - 1 :=
  ⟨by decide, by decide, by norm_num⟩

/-- C5 (amended): `fromNumber(x, unsigned)` maps NaN to zero, clamps inputs
below the representable range to the minimum (`MIN_VALUE` when signed;
`UZERO` for every negative input when unsigned) and inputs at or above the
range to the maximum (`MAX_VALUE` / `MAX_UNSIGNED_VALUE`), and otherwise
returns the 64-bit value of `x` truncated toward zero (not rounded to
nearest): `fromNumber` agrees with the specification function
`fromNumberSpec` on every input. -/
theorem c5_fromNumber_truncates (v : JSNum) (u : Bool) :
    Long.fromNumber v u = Long.fromNumberSpec v u :=
  Long.fromNumber_eq_spec v u

/-- C6 counterexample: the claim says any string with a `-` at a position
other than 0 (its own example: `"--5"`) fails with the interior-hyphen
error.  But `fromString` strips one leading hyphen per recursion step, so
`"--5"` parses successfully to 5 (negated twice). -/
theorem c6_double_hyphen_parses :
    Long.fromString ("--5".toList) false 10 = .ok (Long.fromInt 5 false) := by decide

/-- C6 (amended): for every string whose *first* `-` sits at a position
strictly greater than 0 (e.g. `"1-2"`), and any radix in [2,36],
`fromString` fails with the interior-hyphen error; a `-` at position 0 is
instead handled by recursing on the remainder and negating, so a run of
leading hyphens (as in `"--5"`) is accepted. -/
theorem c6_interior_hyphen_error (s : List Char) (u : Bool) (radix : Int) (p : Nat)
    (hfind : s.findIdx? (fun c => c = '-') = some p) (hp : 0 < p)
    (hr2 : 2 ≤ radix) (hr36 : radix ≤ 36) :
    Long.fromString s u radix = .error .interiorHyphen :=
  Long.fromString_interior_hyphen s u radix p hfind hp hr2 hr36

/-- Witness for C6 at `"1-2"` (first hyphen at position 1, radix 10). -/
theorem c6_interior_hyphen_error_witness :
    List.findIdx? (fun c => c = '-') ("1-2".toList) = some 1 ∧
    Long.fromString ("1-2".toList) false 10 = .error .interiorHyphen :=
  ⟨by decide,
    c6_interior_hyphen_error ("1-2".toList) false 10 1 (by decide) (by decide)
      (by decide) (by decide)⟩

/-- C7 counterexample: the claim says every non-empty string with a radix
outside [2,36] fails with the invalid-radix error regardless of content.
But the literal-token check precedes the radix check, so
`fromString("NaN", false, 1)` returns zero; and `radix = 0` (outside
[2,36]) selects the default radix 10, so `fromString("1", false, 0)`
returns one. -/
theorem c7_radix_check_bypass :
    Long.fromString ("NaN".toList) false 1 = .ok Long.ZERO ∧
    Long.fromString ("1".toList) false 0 = .ok Long.ONE :=
  ⟨by decide, by decide⟩

/-- C7 (amended): for every non-empty string other than the four literal
tokens `"NaN"`/`"Infinity"`/`"+Infinity"`/`"-Infinity"`, and every radix
outside [2,36] other than 0 (0 stands for the omitted parameter and selects
the default 10), `fromString` fails with the invalid-radix error regardless
of the remaining text content. -/
theorem c7_invalid_radix_error (s : List Char) (u : Bool) (radix : Int)
    (hne : s ≠ []) (ht1 : s ≠ "NaN".toList) (ht2 : s ≠ "Infinity".toList)
    (ht3 : s ≠ "+Infinity".toList) (ht4 : s ≠ "-Infinity".toList)
    (hr0 : radix ≠ 0) (hr : radix < 2 ∨ 36 < radix) :
    Long.fromString s u radix = .error .radixRange :=
  Long.fromString_invalid_radix s u radix hne ht1 ht2 ht3 ht4 hr0 hr

/-- Witness for C7 at `"1"` with radix 37. -/
theorem c7_invalid_radix_error_witness :
    Long.fromString ("1".toList) false 37 = .error .radixRange :=
  c7_invalid_radix_error ("1".toList) false 37 (by decide) (by decide) (by decide)
    (by decide) (by decide) (by decide) (by decide)

/-- C9: `negate` is the map `x ↦ not(x) + 1` (the `MIN_VALUE` special case
returns the same `(low, high, unsigned)` triple that `not(x) + 1` produces,
so the equation holds for every value, and `MIN_VALUE` is its own
negation); consequently double negation is the identity:
`a.negate().negate().equals(a)` for every `a`. -/
theorem c9_negate_involution :
    (∀ x : Long, x.negate = x.not.add Long.ONE) ∧
    Long.MIN_VALUE.negate = Long.MIN_VALUE ∧
    (∀ a : Long, (a.negate.negate).equals a = true) := by
  refine ⟨?_, by decide, ?_⟩
  · intro x
    unfold Long.negate
    split
    case isTrue hc =>
      rw [Long.eq_MIN_iff] at hc
      rw [hc.2]
      decide
    case isFalse hc => rfl
  · intro a
    have hnu : a.negate.negate.unsigned = a.unsigned := by
      rw [Long.negate_unsigned, Long.negate_unsigned]
    have hlt := a.asU_lt
    have hnv : a.negate.negate.asU = a.asU := by
      rw [Long.asU_negate, Long.asU_negate]
      omega
    rw [Long.eq_of_asU hnu hnv]
    exact Long.equals_self a

/-- C10: a non-empty input with no valid digit and no hyphen does not make
`fromString` fail: `parseInt` yields NaN for the chunk, `fromNumber` maps
NaN to zero, and the accumulated result is the zero value —
`fromString("@@@", false, 10)` silently returns 0. -/
theorem c10_invalid_digits_silent_zero :
    Long.fromString ("@@@".toList) false 10 = .ok Long.ZERO := by decide
